import Mathlib

/-!
Verification of the Vertex AI Claude provider extension
(`src/index.ts` of `isaacraja/pi-vertex-claude`).

JavaScript strings are modelled as lists of UTF-16 code units
(`JStr := List Nat`), so that lone surrogates -- which Lean's `String`
cannot represent -- are expressible.  Pure helper functions of the source
(`sanitizeSurrogates`, `mapStopReason`, `parseStreamingJson`,
`convertContentBlocks`, `convertMessages`) are translated directly; the
vendor-event loop of `streamVertexClaude` is translated as a step function
`processEvent` from output state and one vendor event to the updated state
plus the list of normalized events pushed.  Exceptions are modelled with
`Except`.
-/

namespace VertexClaude

/-- A JavaScript string: a sequence of UTF-16 code units. -/
abbrev JStr := List Nat

/-- Builds a `JStr` from an ASCII/BMP Lean string literal (the code points of a
BMP-only string coincide with its UTF-16 code units). -/
def jstr (s : String) : JStr := s.data.map Char.toNat

/-- JavaScript `String.prototype.trim` whitespace set: ECMA-262 WhiteSpace
(TAB, VT, FF, SP, NBSP, ZWNBSP and the Unicode space separators) together
with the line terminators (LF, CR, LS, PS). -/
def isJsWs (c : Nat) : Bool :=
  c = 0x9 || c = 0xA || c = 0xB || c = 0xC || c = 0xD || c = 0x20 ||
  c = 0xA0 || c = 0x1680 || (0x2000 ≤ c && c ≤ 0x200A) ||
  c = 0x2028 || c = 0x2029 || c = 0x202F || c = 0x205F || c = 0x3000 || c = 0xFEFF

/-- JavaScript `s.trim()`: strip the whitespace prefix and suffix. -/
def trimJs (s : JStr) : JStr :=
  ((s.dropWhile isJsWs).reverse.dropWhile isJsWs).reverse

/-- `sanitizeSurrogates` (src/index.ts): `text.replace(/[\uD800-\uDFFF]/g, "�")`.
The regular expression has no `u` flag, so it is matched code unit by code
unit: every code unit in the surrogate range is replaced, whether or not it
is half of a well-paired surrogate. -/
def sanitizeSurrogates (text : JStr) : JStr :=
  text.map (fun u => if 0xD800 ≤ u ∧ u ≤ 0xDFFF then 0xFFFD else u)

/-- The behavior the spec asks of surrogate sanitization: replace exactly the
lone (unpaired) surrogate code units, preserving well-formed
high-surrogate/low-surrogate pairs.  Written from the spec's words, for
comparison with `sanitizeSurrogates` above. -/
def sanitizeSpecLoneOnly : JStr → JStr
  | [] => []
  | [u] => if 0xD800 ≤ u ∧ u ≤ 0xDFFF then [0xFFFD] else [u]
  | u :: v :: rest =>
    if 0xD800 ≤ u ∧ u ≤ 0xDBFF then
      if 0xDC00 ≤ v ∧ v ≤ 0xDFFF then u :: v :: sanitizeSpecLoneOnly rest
      else 0xFFFD :: sanitizeSpecLoneOnly (v :: rest)
    else if 0xDC00 ≤ u ∧ u ≤ 0xDFFF then 0xFFFD :: sanitizeSpecLoneOnly (v :: rest)
    else u :: sanitizeSpecLoneOnly (v :: rest)

/-! ## JSON values and the two parsers behind `parseStreamingJson`

`parseStreamingJson` (src/index.ts) first calls the runtime's `JSON.parse`
and, when that throws, the `parse` function of the `partial-json` npm
package.  Both are external to the repository, so they are modelled here:
`jsonParse` follows the ECMA-404 grammar accepted by `JSON.parse`, and
`partialJsonParse` follows the spec's description of the recovery parser. -/

/-- A JavaScript JSON value.  Number literals are kept as their source text:
no claim inspects a numeric value beyond the literal that produced it. -/
inductive JsonVal where
  | null
  | bool (b : Bool)
  | num (lexeme : JStr)
  | str (s : JStr)
  | arr (items : List JsonVal)
  | obj (fields : List (JStr × JsonVal))

/-- `true` exactly for a JSON object (a "mapping"). -/
def JsonVal.isObj : JsonVal → Bool
  | .obj _ => true
  | _ => false

/-- Looks a key up in a JSON object's field list. -/
def JsonVal.lookupKey : JsonVal → JStr → Option JsonVal
  | .obj fields, k => (fields.find? (fun f => f.1 = k)).map (·.2)
  | _, _ => none

/-- JSON (ECMA-404) whitespace: space, tab, line feed, carriage return. -/
def isJsonWs (c : Nat) : Bool := c = 0x20 || c = 0x9 || c = 0xA || c = 0xD

def skipJsonWs (l : List Nat) : List Nat := l.dropWhile isJsonWs

def isDigit (c : Nat) : Bool := 0x30 ≤ c && c ≤ 0x39

/-- Value of a hexadecimal digit code unit. -/
def hexVal (c : Nat) : Option Nat :=
  if 0x30 ≤ c ∧ c ≤ 0x39 then some (c - 0x30)
  else if 0x41 ≤ c ∧ c ≤ 0x46 then some (c - 0x41 + 10)
  else if 0x61 ≤ c ∧ c ≤ 0x66 then some (c - 0x61 + 10)
  else none

/-- Drops `pre` from the front of `l`, failing when `l` does not start with
`pre`. -/
def dropPrefix? (pre l : List Nat) : Option (List Nat) :=
  if l.take pre.length = pre then some (l.drop pre.length) else none

/-- Strict JSON string body (after the opening quote): content plus the rest
after the closing quote.  Escapes follow the JSON grammar; `\uXXXX` yields one
UTF-16 code unit; unescaped control characters are rejected. -/
def parseStringBody : Nat → List Nat → Option (JStr × List Nat)
  | 0, _ => none
  | _, [] => none
  | fuel+1, c :: r =>
    if c = 0x22 then some ([], r)
    else if c = 0x5C then
      match r with
      | [] => none
      | e :: r2 =>
        if e = 0x22 ∨ e = 0x5C ∨ e = 0x2F then
          (parseStringBody fuel r2).map (fun p => (e :: p.1, p.2))
        else if e = 0x62 then (parseStringBody fuel r2).map (fun p => (0x8 :: p.1, p.2))
        else if e = 0x66 then (parseStringBody fuel r2).map (fun p => (0xC :: p.1, p.2))
        else if e = 0x6E then (parseStringBody fuel r2).map (fun p => (0xA :: p.1, p.2))
        else if e = 0x72 then (parseStringBody fuel r2).map (fun p => (0xD :: p.1, p.2))
        else if e = 0x74 then (parseStringBody fuel r2).map (fun p => (0x9 :: p.1, p.2))
        else if e = 0x75 then
          match r2 with
          | h1 :: h2 :: h3 :: h4 :: r3 =>
            match hexVal h1, hexVal h2, hexVal h3, hexVal h4 with
            | some a, some b, some c2, some d =>
              (parseStringBody fuel r3).map (fun p => ((((a*16+b)*16+c2)*16+d) :: p.1, p.2))
            | _, _, _, _ => none
          | _ => none
        else none
    else if c < 0x20 then none
    else (parseStringBody fuel r).map (fun p => (c :: p.1, p.2))

def parseDigits (l : List Nat) : JStr × List Nat :=
  (l.takeWhile isDigit, l.dropWhile isDigit)

/-- Optional fraction and exponent of a strict JSON number, appended to the
lexeme accumulated so far. -/
def parseFracExp (acc : JStr) (l : List Nat) : Option (JStr × List Nat) :=
  let step1 : Option (JStr × List Nat) :=
    match l with
    | c :: r =>
      if c = 0x2E then
        match r with
        | d :: _ =>
          if isDigit d then
            some (acc ++ c :: (parseDigits r).1, (parseDigits r).2)
          else none
        | [] => none
      else some (acc, l)
    | [] => some (acc, l)
  match step1 with
  | none => none
  | some (acc2, l2) =>
    match l2 with
    | c :: r =>
      if c = 0x65 ∨ c = 0x45 then
        let sr : JStr × List Nat :=
          match r with
          | s :: r' => if s = 0x2B ∨ s = 0x2D then ([s], r') else ([], r)
          | [] => ([], r)
        match sr.2 with
        | d :: _ =>
          if isDigit d then
            some (acc2 ++ c :: sr.1 ++ (parseDigits sr.2).1, (parseDigits sr.2).2)
          else none
        | [] => none
      else some (acc2, l2)
    | [] => some (acc2, l2)

/-- Strict JSON number (lexeme and rest). -/
def parseNumber (l : List Nat) : Option (JStr × List Nat) :=
  let sl : JStr × List Nat :=
    match l with
    | c :: r => if c = 0x2D then ([c], r) else ([], l)
    | [] => ([], l)
  match sl.2 with
  | [] => none
  | c :: r =>
    if c = 0x30 then parseFracExp (sl.1 ++ [c]) r
    else if isDigit c then
      parseFracExp (sl.1 ++ c :: (parseDigits r).1) (parseDigits r).2
    else none

mutual

/-- Strict JSON value parser (a model of the runtime's `JSON.parse`),
fuel-indexed. -/
def parseValue : Nat → List Nat → Option (JsonVal × List Nat)
  | 0, _ => none
  | fuel+1, l =>
    match skipJsonWs l with
    | [] => none
    | c :: r =>
      if c = 0x22 then (parseStringBody (r.length + 1) r).map (fun p => (.str p.1, p.2))
      else if c = 0x7B then parseObjBody fuel r
      else if c = 0x5B then parseArrBody fuel r
      else if c = 0x74 then (dropPrefix? (jstr "rue") r).map (fun rest => (.bool true, rest))
      else if c = 0x66 then (dropPrefix? (jstr "alse") r).map (fun rest => (.bool false, rest))
      else if c = 0x6E then (dropPrefix? (jstr "ull") r).map (fun rest => (.null, rest))
      else if c = 0x2D ∨ isDigit c then (parseNumber (c :: r)).map (fun p => (.num p.1, p.2))
      else none

/-- Strict JSON object body, after the opening brace. -/
def parseObjBody : Nat → List Nat → Option (JsonVal × List Nat)
  | 0, _ => none
  | fuel+1, l =>
    match skipJsonWs l with
    | [] => none
    | c :: r =>
      if c = 0x7D then some (.obj [], r)
      else parseMembers fuel (c :: r) []

/-- Strict JSON object members, starting at a key. -/
def parseMembers : Nat → List Nat → List (JStr × JsonVal) → Option (JsonVal × List Nat)
  | 0, _, _ => none
  | fuel+1, l, acc =>
    match skipJsonWs l with
    | [] => none
    | c :: r =>
      if c = 0x22 then
        match parseStringBody (r.length + 1) r with
        | some (key, rest1) =>
          match skipJsonWs rest1 with
          | c2 :: r2 =>
            if c2 = 0x3A then
              match parseValue fuel r2 with
              | some (v, rest2) =>
                match skipJsonWs rest2 with
                | c3 :: r3 =>
                  if c3 = 0x2C then parseMembers fuel r3 (acc ++ [(key, v)])
                  else if c3 = 0x7D then some (.obj (acc ++ [(key, v)]), r3)
                  else none
                | [] => none
              | none => none
            else none
          | [] => none
        | none => none
      else none

/-- Strict JSON array body, after the opening bracket. -/
def parseArrBody : Nat → List Nat → Option (JsonVal × List Nat)
  | 0, _ => none
  | fuel+1, l =>
    match skipJsonWs l with
    | [] => none
    | c :: r =>
      if c = 0x5D then some (.arr [], r)
      else parseItems fuel (c :: r) []

/-- Strict JSON array items. -/
def parseItems : Nat → List Nat → List JsonVal → Option (JsonVal × List Nat)
  | 0, _, _ => none
  | fuel+1, l, acc =>
    match parseValue fuel l with
    | some (v, rest) =>
      match skipJsonWs rest with
      | c :: r =>
        if c = 0x2C then parseItems fuel r (acc ++ [v])
        else if c = 0x5D then some (.arr (acc ++ [v]), r)
        else none
      | [] => none
    | none => none

end

/-- Model of the runtime's `JSON.parse`: a strict JSON document with nothing
but whitespace after it. -/
def jsonParse (s : JStr) : Option JsonVal :=
  match parseValue (3 * s.length + 3) s with
  | some (v, rest) => if skipJsonWs rest = [] then some v else none
  | none => none

/-- Single-character escapes as completed by the tolerant parser. -/
def escMapR (e : Nat) : Nat :=
  if e = 0x62 then 0x8
  else if e = 0x66 then 0xC
  else if e = 0x6E then 0xA
  else if e = 0x72 then 0xD
  else if e = 0x74 then 0x9
  else e

/-- Tolerant string body: input ending inside the string (or inside an
escape) completes the string with the content collected so far. -/
def parseStringBodyR : Nat → List Nat → JStr × List Nat
  | 0, l => ([], l)
  | _+1, [] => ([], [])
  | fuel+1, c :: r =>
    if c = 0x22 then ([], r)
    else if c = 0x5C then
      match r with
      | [] => ([], [])
      | e :: r2 =>
        if e = 0x75 then
          match r2 with
          | h1 :: h2 :: h3 :: h4 :: r3 =>
            match hexVal h1, hexVal h2, hexVal h3, hexVal h4 with
            | some a, some b, some c2, some d =>
              let p := parseStringBodyR fuel r3
              ((((a*16+b)*16+c2)*16+d) :: p.1, p.2)
            | _, _, _, _ => ([], [])
          | _ => ([], [])
        else
          let p := parseStringBodyR fuel r2
          (escMapR e :: p.1, p.2)
    else
      let p := parseStringBodyR fuel r
      (c :: p.1, p.2)

/-- Tolerant literal: the full word, or the input being a non-empty prefix of
the word just as it ends. -/
def litR (word : JStr) (v : JsonVal) (l : List Nat) : Option (JsonVal × List Nat) :=
  match dropPrefix? word l with
  | some rest => some (v, rest)
  | none => if l ≠ [] ∧ word.take l.length = l then some (v, []) else none

/-- `true` for the code units a (possibly unfinished) number lexeme may use. -/
def isNumChar (c : Nat) : Bool :=
  isDigit c || c = 0x2D || c = 0x2B || c = 0x2E || c = 0x65 || c = 0x45

/-- Tolerant number: a strict number, or — at the end of the input — a
number lexeme cut off mid-fraction or mid-exponent. -/
def parseNumberR (l : List Nat) : Option (JsonVal × List Nat) :=
  match parseNumber l with
  | some p => some (.num p.1, p.2)
  | none =>
    let lex := l.takeWhile isNumChar
    if l.dropWhile isNumChar = [] ∧ lex ≠ [] ∧ lex.any isDigit then
      some (.num lex, [])
    else none

mutual

/-- Modelled from the spec: the best-effort recovery parser (the
`partial-json` npm dependency, whose source is not part of this repository).
It "completes unterminated strings/objects/arrays": input that ends inside a
string, object or array closes the open construct, a dangling object key
without a value is dropped, and genuinely malformed input fails. -/
def parseValueR : Nat → List Nat → Option (JsonVal × List Nat)
  | 0, _ => none
  | fuel+1, l =>
    match skipJsonWs l with
    | [] => none
    | c :: r =>
      if c = 0x22 then
        let p := parseStringBodyR (r.length + 1) r
        some (.str p.1, p.2)
      else if c = 0x7B then parseObjR fuel r []
      else if c = 0x5B then parseArrR fuel r []
      else if c = 0x74 then litR (jstr "true") (.bool true) (c :: r)
      else if c = 0x66 then litR (jstr "false") (.bool false) (c :: r)
      else if c = 0x6E then litR (jstr "null") .null (c :: r)
      else if c = 0x2D ∨ isDigit c then parseNumberR (c :: r)
      else none

/-- Tolerant object body (after the opening brace). -/
def parseObjR : Nat → List Nat → List (JStr × JsonVal) → Option (JsonVal × List Nat)
  | 0, _, _ => none
  | fuel+1, l, acc =>
    match skipJsonWs l with
    | [] => some (.obj acc, [])
    | c :: r =>
      if c = 0x7D then some (.obj acc, r)
      else if c = 0x22 then
        let kp := parseStringBodyR (r.length + 1) r
        match skipJsonWs kp.2 with
        | [] => some (.obj acc, [])
        | c2 :: r2 =>
          if c2 = 0x3A then
            match skipJsonWs r2 with
            | [] => some (.obj acc, [])
            | _ :: _ =>
              match parseValueR fuel r2 with
              | none => none
              | some (v, rest2) =>
                match skipJsonWs rest2 with
                | [] => some (.obj (acc ++ [(kp.1, v)]), [])
                | c3 :: r3 =>
                  if c3 = 0x2C then parseObjR fuel r3 (acc ++ [(kp.1, v)])
                  else if c3 = 0x7D then some (.obj (acc ++ [(kp.1, v)]), r3)
                  else none
          else none
      else none

/-- Tolerant array body (after the opening bracket). -/
def parseArrR : Nat → List Nat → List JsonVal → Option (JsonVal × List Nat)
  | 0, _, _ => none
  | fuel+1, l, acc =>
    match skipJsonWs l with
    | [] => some (.arr acc, [])
    | c :: r =>
      if c = 0x5D then some (.arr acc, r)
      else
        match parseValueR fuel (c :: r) with
        | none => none
        | some (v, rest) =>
          match skipJsonWs rest with
          | [] => some (.arr (acc ++ [v]), [])
          | c2 :: r2 =>
            if c2 = 0x2C then parseArrR fuel r2 (acc ++ [v])
            else if c2 = 0x5D then some (.arr (acc ++ [v]), r2)
            else none

end

/-- Modelled from the spec: top level of the `partial-json` recovery parse. -/
def partialJsonParse (s : JStr) : Option JsonVal :=
  match parseValueR (3 * s.length + 3) s with
  | some (v, rest) => if skipJsonWs rest = [] then some v else none
  | none => none

/-- `parseStreamingJson` (src/index.ts): empty/whitespace input gives `{}`;
otherwise `JSON.parse`, falling back on the `partial-json` parse with its
`null`/failure results coalesced to `{}` (the `?? {}` and the `catch`). -/
def parseStreamingJson (s : JStr) : JsonVal :=
  if trimJs s = [] then .obj []
  else
    match jsonParse s with
    | some v => v
    | none =>
      match partialJsonParse s with
      | some v =>
        match v with
        | .null => .obj []
        | _ => v
      | none => .obj []

/-! ## Stop-reason classifier -/

/-- The host's normalized stop reasons (`StopReason` of `@mariozechner/pi-ai`). -/
inductive StopReason where
  | stop
  | length
  | toolUse
  | error
  | aborted
deriving DecidableEq

/-- `mapStopReason` (src/index.ts): the `switch` over the vendor's raw
stop-reason string; the `default` branch throws
`Unhandled stop reason: ${reason}`, modelled as `Except.error` carrying the
message. -/
def mapStopReason (reason : JStr) : Except JStr StopReason :=
  if reason = jstr "end_turn" then .ok .stop
  else if reason = jstr "pause_turn" then .ok .stop
  else if reason = jstr "stop_sequence" then .ok .stop
  else if reason = jstr "max_tokens" then .ok .length
  else if reason = jstr "tool_use" then .ok .toolUse
  else if reason = jstr "refusal" then .ok .error
  else .error (jstr "Unhandled stop reason: " ++ reason)

/-! ## Model descriptors and the conversation data model -/

inductive Modality where
  | text
  | image
deriving DecidableEq

/-- The capability/price part of a model descriptor consumed by the
converter and the streaming translator (prices in USD per million tokens). -/
structure ModelD where
  reasoning : Bool
  input : List Modality
  costInput : ℚ
  costOutput : ℚ
  costCacheRead : ℚ
  costCacheWrite : ℚ
  maxTokens : Nat

/-- A user-turn / tool-result content part (`TextContent | ImageContent`). -/
inductive UPart where
  | text (text : JStr)
  | image (data : JStr) (mimeType : JStr)
deriving DecidableEq

/-- An assistant-turn content part (`TextContent | ThinkingContent | ToolCall`). -/
inductive APart where
  | text (text : JStr)
  | thinking (thinking : JStr) (thinkingSignature : Option JStr)
  | toolCall (id : JStr) (name : JStr) (arguments : JsonVal)

/-- A host conversation message (`Message` of `@mariozechner/pi-ai`):
user content is either a plain string or a part list. -/
inductive Msg where
  | userStr (content : JStr)
  | userParts (content : List UPart)
  | assistant (content : List APart)
  | toolResult (toolCallId : JStr) (content : List UPart) (isError : Bool)

/-- A typed block inside a `tool_result`'s content list. -/
inductive TBlock where
  | text (text : JStr)
  | image (mediaType : JStr) (data : JStr)
deriving DecidableEq

/-- A vendor request content block.  `cc` is the `cache_control: ephemeral`
marker; the source only ever sets it on `text`, `image` and `tool_result`
blocks. -/
inductive VBlock where
  | text (text : JStr) (cc : Bool)
  | image (mediaType : JStr) (data : JStr) (cc : Bool)
  | thinking (thinking : JStr) (signature : JStr)
  | toolUse (id : JStr) (name : JStr) (input : JsonVal)
  | toolResult (toolUseId : JStr) (content : Sum JStr (List TBlock)) (isError : Bool) (cc : Bool)

inductive Role where
  | user
  | assistant
deriving DecidableEq

/-- A vendor request message: a role and either string content or blocks. -/
structure VMsg where
  role : Role
  content : Sum JStr (List VBlock)

/-- `convertContentBlocks` (src/index.ts): tool-result content with no image
collapses to one sanitized newline-joined string; with images it becomes
typed blocks, prepending the `"(see attached image)"` placeholder when no
text block is present.  (The no-image branch reads `.text` of every part;
parts are then all text parts, so the image arm below is unreachable.) -/
def convertContentBlocks (content : List UPart) : Sum JStr (List TBlock) :=
  let hasImages := content.any fun p => match p with | .image _ _ => true | _ => false
  if !hasImages then
    .inl (sanitizeSurrogates
      (List.intercalate [0xA]
        (content.map fun p => match p with | .text t => t | .image _ _ => [])))
  else
    let blocks := content.map fun p =>
      match p with
      | .text t => TBlock.text (sanitizeSurrogates t)
      | .image d m => TBlock.image m d
    let hasText := blocks.any fun b => match b with | .text _ => true | _ => false
    .inr (if !hasText then TBlock.text (jstr "(see attached image)") :: blocks else blocks)

/-- The per-part conversion of a multi-part user turn. -/
def userPartBlock : UPart → VBlock
  | .text t => .text (sanitizeSurrogates t) false
  | .image d m => .image m d false

def VBlock.isImage : VBlock → Bool
  | .image _ _ _ => true
  | _ => false

/-- Multi-part user turn conversion: convert each part, drop image blocks
when the model's input modalities exclude images, then drop text blocks that
trim to empty. -/
def userBlocks (model : ModelD) (ps : List UPart) : List VBlock :=
  let blocks := ps.map userPartBlock
  let filtered :=
    if !(model.input.contains Modality.image) then blocks.filter (fun b => !b.isImage)
    else blocks
  filtered.filter fun b =>
    match b with
    | .text t _ => !(trimJs t).isEmpty
    | _ => true

/-- `true` when an optional thinking signature is present and non-empty after
trimming (`block.thinkingSignature?.trim()` used as a condition). -/
def sigOk : Option JStr → Bool
  | some s => !(trimJs s).isEmpty
  | none => false

/-- The assistant-turn per-part conversion: text kept when non-blank,
thinking kept as a thinking block only with a usable signature and demoted to
text otherwise, tool calls always converted. -/
def convertAssistantPart : APart → Option VBlock
  | .text t => if !(trimJs t).isEmpty then some (.text (sanitizeSurrogates t) false) else none
  | .thinking t sig =>
    if !(trimJs t).isEmpty then
      if sigOk sig then some (.thinking (sanitizeSurrogates t) (sig.getD []))
      else some (.text (sanitizeSurrogates t) false)
    else none
  | .toolCall id name args => some (.toolUse id name args)

def Msg.isTR : Msg → Bool
  | .toolResult _ _ _ => true
  | _ => false

/-- The `tool_result` block built from one tool-result turn. -/
def trBlock : Msg → VBlock
  | .toolResult id c e => .toolResult id (convertContentBlocks c) e false
  | _ => .text [] false

/-- A tool-result turn given by its fields
(`toolCallId`, `content`, `isError`). -/
def trMsg (r : JStr × List UPart × Bool) : Msg := .toolResult r.1 r.2.1 r.2.2

theorem length_dropWhile_le (p : α → Bool) (l : List α) :
    (l.dropWhile p).length ≤ l.length := by
  induction l with
  | nil => simp [List.dropWhile]
  | cons a t ih =>
    by_cases h : p a
    · simp [List.dropWhile, h]; omega
    · simp [List.dropWhile, h]

/-- The main conversion loop of `convertMessages` (src/index.ts): blank
plain-string user turns dropped, multi-part user turns filtered, assistant
turns converted part-wise, and a run of consecutive tool-result turns
coalesced into one user message (the inner `while` that advances `i`). -/
def convertLoop (model : ModelD) : List Msg → List VMsg
  | [] => []
  | .userStr s :: rest =>
    (if !(trimJs s).isEmpty then [⟨.user, .inl (sanitizeSurrogates s)⟩] else []) ++
      convertLoop model rest
  | .userParts ps :: rest =>
    (if !(userBlocks model ps).isEmpty then [⟨.user, .inr (userBlocks model ps)⟩] else []) ++
      convertLoop model rest
  | .assistant ps :: rest =>
    (if !(ps.filterMap convertAssistantPart).isEmpty then
        [⟨.assistant, .inr (ps.filterMap convertAssistantPart)⟩]
      else []) ++
      convertLoop model rest
  | .toolResult id c e :: rest =>
    ⟨.user, .inr (trBlock (.toolResult id c e) :: (rest.takeWhile Msg.isTR).map trBlock)⟩ ::
      convertLoop model (rest.dropWhile Msg.isTR)
termination_by msgs => msgs.length
decreasing_by
  all_goals simp only [List.length_cons]
  · omega
  · omega
  · omega
  · exact Nat.lt_succ_of_le (length_dropWhile_le _ _)

/-- `true` for the block kinds the cache annotation may mark
(`text`, `image`, `tool_result`). -/
def markable : VBlock → Bool
  | .text _ _ => true
  | .image _ _ _ => true
  | .toolResult _ _ _ _ => true
  | _ => false

/-- Sets the ephemeral cache-control marker on a markable block. -/
def setCC : VBlock → VBlock
  | .text t _ => .text t true
  | .image m d _ => .image m d true
  | .toolResult i c e _ => .toolResult i c e true
  | b => b

/-- The cache annotation applied to the last built message: a user message
with a block list gets its last block marked when that block is markable. -/
def annotateMsg (m : VMsg) : VMsg :=
  if m.role = .user then
    match m.content with
    | .inr bs =>
      match bs.getLast? with
      | some b => if markable b then ⟨.user, .inr (bs.dropLast ++ [setCC b])⟩ else m
      | none => m
    | .inl _ => m
  else m

/-- The trailing cache-annotation pass of `convertMessages`: only the last
message of a non-empty list is touched. -/
def annotateCache : List VMsg → List VMsg
  | [] => []
  | [m] => [annotateMsg m]
  | m :: rest => m :: annotateCache rest

/-- `convertMessages` (src/index.ts): the conversion loop followed by the
cache annotation of the last message. -/
def convertMessages (messages : List Msg) (model : ModelD) : List VMsg :=
  annotateCache (convertLoop model messages)

/-- Clears every cache-control marker (used to state properties of the
conversion that are independent of the cache annotation). -/
def eraseB : VBlock → VBlock
  | .text t _ => .text t false
  | .image m d _ => .image m d false
  | .toolResult i c e _ => .toolResult i c e false
  | b => b

def eraseMsg (m : VMsg) : VMsg :=
  match m.content with
  | .inl _ => m
  | .inr bs => ⟨m.role, .inr (bs.map eraseB)⟩

def eraseCC : List VMsg → List VMsg := List.map eraseMsg

/-! ## Thinking budget / output-cap resolution -/

inductive Effort where
  | minimal
  | low
  | medium
  | high
  | xhigh
deriving DecidableEq

/-- The `defaultBudgets` record of `streamVertexClaude` (src/index.ts). -/
def defaultBudgets : Effort → Nat
  | .minimal => 1024
  | .low => 4096
  | .medium => 10240
  | .high => 20480
  | .xhigh => 32768

/-- `budgetKey`: the key used for the model-specific override lookup
(`xhigh` reads the `high` entry). -/
def budgetKey (e : Effort) : Effort :=
  if e = .xhigh then .high else e

/-- The reasoning branch of `streamVertexClaude` (src/index.ts): the budget
is the override at `budgetKey`, else `defaultBudgets[options.reasoning]`
(the final `?? 10240` of the source is dead, `defaultBudgets` being total);
then `max_tokens` is bumped to `thinkingBudget + 1024` when it does not
exceed the budget.  Returns `(thinkingBudget, max_tokens)`. -/
def resolveThinking (reasoning : Effort) (overrides : Effort → Option Nat)
    (maxTokens : Nat) : Nat × Nat :=
  let thinkingBudget := (overrides (budgetKey reasoning)).getD (defaultBudgets reasoning)
  let minOutputTokens := 1024
  (thinkingBudget,
    if maxTokens ≤ thinkingBudget then thinkingBudget + minOutputTokens else maxTokens)

/-- `options?.maxTokens || Math.floor(model.maxTokens / 3)`: JavaScript `||`
also replaces a reported `0`. -/
def baseMaxTokens (optMax : Option Nat) (model : ModelD) : Nat :=
  match optMax with
  | some n => if n = 0 then model.maxTokens / 3 else n
  | none => model.maxTokens / 3

/-! ## Streaming event translator -/

/-- A cost record (`usage.cost`), in USD. -/
structure Cost where
  input : ℚ
  output : ℚ
  cacheRead : ℚ
  cacheWrite : ℚ
  total : ℚ

/-- Modelled from the spec: `calculateCost` is imported from
`@mariozechner/pi-ai` and is not part of this repository; per §4.5 each
category costs `tokens * price / 1_000_000` and the total is their sum. -/
def calculateCost (model : ModelD) (input output cacheRead cacheWrite : Nat) : Cost :=
  let ci : ℚ := input * model.costInput / 1000000
  let co : ℚ := output * model.costOutput / 1000000
  let cr : ℚ := cacheRead * model.costCacheRead / 1000000
  let cw : ℚ := cacheWrite * model.costCacheWrite / 1000000
  ⟨ci, co, cr, cw, ci + co + cr + cw⟩

/-- The running usage record of the output message. -/
structure Usage where
  input : Nat
  output : Nat
  cacheRead : Nat
  cacheWrite : Nat
  totalTokens : Nat
  cost : Cost

/-- An in-progress output content block.  `index` is the transient vendor
position tag (deleted on `content_block_stop`); a tool call also keeps the
raw `partialJson` buffer until finalized. -/
inductive SBlock where
  | text (text : JStr) (index : Option Nat)
  | thinking (thinking : JStr) (thinkingSignature : JStr) (index : Option Nat)
  | toolCall (id : JStr) (name : JStr) (arguments : JsonVal)
      (partialJson : Option JStr) (index : Option Nat)

/-- The vendor position tag currently attached to a block. -/
def SBlock.index : SBlock → Option Nat
  | .text _ i => i
  | .thinking _ _ i => i
  | .toolCall _ _ _ _ i => i

/-- The streaming output message being accumulated (`output` in
`streamVertexClaude`). -/
structure SOut where
  content : List SBlock
  usage : Usage
  stopReason : StopReason
  errorMessage : Option JStr

/-- The kind payload of a vendor `content_block_start`. -/
inductive StartKind where
  | text
  | thinking
  | toolUse (id : JStr) (name : JStr) (input : JsonVal)

/-- The payload of a vendor `content_block_delta`. -/
inductive DeltaKind where
  | textDelta (text : JStr)
  | thinkingDelta (thinking : JStr)
  | inputJsonDelta (partialJson : JStr)
  | signatureDelta (signature : JStr)

/-- A vendor stream event, with usage fields optional as on the wire. -/
inductive VEvent where
  | messageStart (input output cacheRead cacheWrite : Option Nat)
  | blockStart (index : Nat) (kind : StartKind)
  | blockDelta (index : Nat) (delta : DeltaKind)
  | blockStop (index : Nat)
  | messageDelta (stopReason : Option JStr) (input output cacheRead cacheWrite : Option Nat)

/-- A normalized event pushed to the host stream (payload reduced to the
content index and the incremental data; the `partial` output snapshot is the
state itself). -/
inductive Emit where
  | textStart (contentIndex : Nat)
  | textDelta (contentIndex : Nat) (delta : JStr)
  | textEnd (contentIndex : Nat) (content : JStr)
  | thinkingStart (contentIndex : Nat)
  | thinkingDelta (contentIndex : Nat) (delta : JStr)
  | thinkingEnd (contentIndex : Nat) (content : JStr)
  | toolcallStart (contentIndex : Nat)
  | toolcallDelta (contentIndex : Nat) (delta : JStr)
  | toolcallEnd (contentIndex : Nat)

/-- `blocks.findIndex((b) => b.index === event.index)` followed by the
access `blocks[index]`: position and block of the first match, if any. -/
def findBlock : List SBlock → Nat → Option (Nat × SBlock)
  | [], _ => none
  | b :: rest, idx =>
    if b.index = some idx then some (0, b)
    else (findBlock rest idx).map (fun p => (p.1 + 1, p.2))

/-- One iteration of the `for await` vendor-event loop of
`streamVertexClaude` (src/index.ts): the updated output message and the
normalized events pushed for this vendor event.  An unrecognized stop reason
propagates `mapStopReason`'s error (the loop's `throw`). -/
def processEvent (model : ModelD) (st : SOut) (e : VEvent) :
    Except JStr (SOut × List Emit) :=
  match e with
  | .messageStart i o cr cw =>
    let input := i.getD 0
    let output := o.getD 0
    let cacheRead := cr.getD 0
    let cacheWrite := cw.getD 0
    .ok ({ st with usage :=
      { input := input, output := output, cacheRead := cacheRead, cacheWrite := cacheWrite,
        totalTokens := input + output + cacheRead + cacheWrite,
        cost := calculateCost model input output cacheRead cacheWrite } }, [])
  | .blockStart idx kind =>
    match kind with
    | .text =>
      let content := st.content ++ [.text [] (some idx)]
      .ok ({ st with content := content }, [.textStart (content.length - 1)])
    | .thinking =>
      let content := st.content ++ [.thinking [] [] (some idx)]
      .ok ({ st with content := content }, [.thinkingStart (content.length - 1)])
    | .toolUse id name input =>
      let content := st.content ++ [.toolCall id name input (some []) (some idx)]
      .ok ({ st with content := content }, [.toolcallStart (content.length - 1)])
  | .blockDelta idx d =>
    match findBlock st.content idx with
    | none => .ok (st, [])
    | some (i, b) =>
      match d, b with
      | .textDelta t, .text s bi =>
        .ok ({ st with content := st.content.set i (.text (s ++ t) bi) }, [.textDelta i t])
      | .thinkingDelta t, .thinking s sig bi =>
        .ok ({ st with content := st.content.set i (.thinking (s ++ t) sig bi) },
          [.thinkingDelta i t])
      | .inputJsonDelta t, .toolCall id name _ pj bi =>
        let pj' := pj.getD [] ++ t
        .ok ({ st with content :=
          st.content.set i (.toolCall id name (parseStreamingJson pj') (some pj') bi) },
          [.toolcallDelta i t])
      | .signatureDelta t, .thinking s sig bi =>
        .ok ({ st with content := st.content.set i (.thinking s (sig ++ t) bi) }, [])
      | _, _ => .ok (st, [])
  | .blockStop idx =>
    match findBlock st.content idx with
    | none => .ok (st, [])
    | some (i, b) =>
      match b with
      | .text s _ =>
        .ok ({ st with content := st.content.set i (.text s none) }, [.textEnd i s])
      | .thinking s sig _ =>
        .ok ({ st with content := st.content.set i (.thinking s sig none) },
          [.thinkingEnd i s])
      | .toolCall id name _ pj _ =>
        .ok ({ st with content :=
          st.content.set i (.toolCall id name (parseStreamingJson (pj.getD [])) none none) },
          [.toolcallEnd i])
  | .messageDelta sr i o cr cw =>
    let update : SOut → Except JStr (SOut × List Emit) := fun st1 =>
      let input := i.getD st1.usage.input
      let output := o.getD st1.usage.output
      let cacheRead := cr.getD st1.usage.cacheRead
      let cacheWrite := cw.getD st1.usage.cacheWrite
      .ok ({ st1 with usage :=
        { input := input, output := output, cacheRead := cacheRead, cacheWrite := cacheWrite,
          totalTokens := input + output + cacheRead + cacheWrite,
          cost := calculateCost model input output cacheRead cacheWrite } }, [])
    match sr with
    | none => update st
    | some r =>
      match mapStopReason r with
      | .ok s => update { st with stopReason := s }
      | .error msg => .error msg

/-! ## Sample data used by witnesses -/

/-- The test model of src/test/vertex-claude.test.ts (zero prices, both
input modalities). -/
def modelT : ModelD := ⟨false, [.text, .image], 0, 0, 0, 0, 100⟩

/-- A text-only variant of the test model. -/
def modelTextOnly : ModelD := ⟨false, [.text], 0, 0, 0, 0, 100⟩

def usage0 : Usage := ⟨0, 0, 0, 0, 0, ⟨0, 0, 0, 0, 0⟩⟩

/-- A streaming output with one open text block tagged with vendor position 0. -/
def st0 : SOut := ⟨[.text (jstr "hi") (some 0)], usage0, .stop, none⟩

/-! ## Theorems -/

/-- Claim C2: `mapStopReason` maps `end_turn`, `pause_turn` and `stop_sequence` to
`stop`, `max_tokens` to `length`, `tool_use` to `toolUse` and `refusal` to
`error`; every other string fails with an error whose message names the
unrecognized reason rather than returning a default. -/
theorem mapStopReason_total_classification :
    mapStopReason (jstr "end_turn") = .ok .stop ∧
    mapStopReason (jstr "pause_turn") = .ok .stop ∧
    mapStopReason (jstr "stop_sequence") = .ok .stop ∧
    mapStopReason (jstr "max_tokens") = .ok .length ∧
    mapStopReason (jstr "tool_use") = .ok .toolUse ∧
    mapStopReason (jstr "refusal") = .ok .error ∧
    ∀ s : JStr,
      s ∉ [jstr "end_turn", jstr "pause_turn", jstr "stop_sequence",
        jstr "max_tokens", jstr "tool_use", jstr "refusal"] →
      mapStopReason s = .error (jstr "Unhandled stop reason: " ++ s) := by
  refine ⟨rfl, rfl, rfl, rfl, rfl, rfl, ?_⟩
  intro s hs
  simp only [List.mem_cons, List.not_mem_nil, or_false] at hs
  push_neg at hs
  obtain ⟨h1, h2, h3, h4, h5, h6⟩ := hs
  simp [mapStopReason, h1, h2, h3, h4, h5, h6]

/-- Witness for C2: the unrecognized reason `"unknown"` produces the error
message naming it (the behavior the repository test asserts). -/
theorem mapStopReason_unknown_witness :
    mapStopReason (jstr "unknown") =
      .error (jstr "Unhandled stop reason: " ++ jstr "unknown") :=
  mapStopReason_total_classification.2.2.2.2.2.2 (jstr "unknown") (by decide)

/-- Claim C3 counterexample: on the input `"null"` the strict parse succeeds with
the JSON value `null`, and `parseStreamingJson` returns it as is — not an
empty mapping, contradicting "always returns a mapping" / "a parse yielding
a non-mapping yields an empty mapping". -/
theorem parseStreamingJson_null_counterexample :
    parseStreamingJson (jstr "null") = JsonVal.null ∧
    (parseStreamingJson (jstr "null")).isObj = false :=
  ⟨rfl, rfl⟩

/-- Claim C3 (amended): `parseStreamingJson` is total (never throws); empty or
whitespace-only input yields the empty mapping; when the strict parse
succeeds its value is returned unchanged, even when it is not a mapping;
when both the strict and the recovery parse fail the result is the empty
mapping; and the truncated object returns a mapping containing the parsed
field. -/
theorem parseStreamingJson_amended (s : JStr) :
    (trimJs s = [] → parseStreamingJson s = .obj []) ∧
    (∀ v, trimJs s ≠ [] → jsonParse s = some v → parseStreamingJson s = v) ∧
    (jsonParse s = none → partialJsonParse s = none → parseStreamingJson s = .obj []) ∧
    (parseStreamingJson (jstr "\x7b\"a\": 1")).lookupKey (jstr "a") =
      some (.num (jstr "1")) := by
  refine ⟨?_, ?_, ?_, rfl⟩
  · intro h
    simp [parseStreamingJson, h]
  · intro v hne hv
    simp [parseStreamingJson, hne, hv]
  · intro h1 h2
    by_cases ht : trimJs s = [] <;> simp [parseStreamingJson, ht, h1, h2]

/-- Witness for C3 (amended): both failure paths at concrete inputs — the
unparseable text of the repository test and a whitespace-only input. -/
theorem parseStreamingJson_amended_witness :
    parseStreamingJson (jstr "not json at all") = .obj [] ∧
    parseStreamingJson (jstr "  ") = .obj [] :=
  ⟨(parseStreamingJson_amended (jstr "not json at all")).2.2.1 rfl rfl,
   (parseStreamingJson_amended (jstr "  ")).1 rfl⟩

/-- Claim C4: the claim says exactly the lone surrogates are replaced and correct
pairs preserved; the source's `replace(/[\uD800-\uDFFF]/g, "�")` has no `u`
flag and therefore also replaces both halves of a well-paired surrogate
(here U+1D11E, the code units D834 DD1E), unlike the spec-faithful
`sanitizeSpecLoneOnly`; on genuinely lone surrogates the two agree. -/
theorem sanitizeSurrogates_clobbers_valid_pair :
    sanitizeSurrogates [0xD834, 0xDD1E] = [0xFFFD, 0xFFFD] ∧
    sanitizeSpecLoneOnly [0xD834, 0xDD1E] = [0xD834, 0xDD1E] ∧
    sanitizeSurrogates [0xD800, 0x41] = [0xFFFD, 0x41] ∧
    sanitizeSpecLoneOnly [0xD800, 0x41] = [0xFFFD, 0x41] := by
  refine ⟨rfl, rfl, ?_, ?_⟩ <;> norm_num [sanitizeSurrogates, sanitizeSpecLoneOnly]

/-- Claim C8 counterexample: with no override mapping, effort `xhigh` resolves to
a thinking budget of 32768, not the `high` default 20480 the claim states. -/
theorem resolveThinking_xhigh_counterexample :
    (resolveThinking .xhigh (fun _ => none) 100).1 = 32768 ∧
    (resolveThinking .xhigh (fun _ => none) 100).1 ≠ 20480 := by
  decide

/-- Claim C8 (amended): the default budgets are 1024, 4096, 10240, 20480 and
32768 for minimal/low/medium/high/xhigh; an override mapping's `high` entry
is the one consulted for `xhigh`; and the output-token cap is raised to
`thinkingBudget + 1024` exactly when it does not exceed the budget, so the
cap always ends up strictly above the budget. -/
theorem resolveThinking_amended (ov : Effort → Option Nat) (mt : Nat) :
    ((resolveThinking .minimal (fun _ => none) mt).1 = 1024 ∧
     (resolveThinking .low (fun _ => none) mt).1 = 4096 ∧
     (resolveThinking .medium (fun _ => none) mt).1 = 10240 ∧
     (resolveThinking .high (fun _ => none) mt).1 = 20480 ∧
     (resolveThinking .xhigh (fun _ => none) mt).1 = 32768) ∧
    (∀ v, ov .high = some v → (resolveThinking .xhigh ov mt).1 = v) ∧
    (∀ r, mt ≤ (resolveThinking r ov mt).1 →
      (resolveThinking r ov mt).2 = (resolveThinking r ov mt).1 + 1024) ∧
    (∀ r, (resolveThinking r ov mt).1 < mt → (resolveThinking r ov mt).2 = mt) ∧
    (∀ r, (resolveThinking r ov mt).1 < (resolveThinking r ov mt).2) := by
  refine ⟨⟨rfl, rfl, rfl, rfl, rfl⟩, ?_, ?_, ?_, ?_⟩
  · intro v hv
    simp [resolveThinking, budgetKey, hv]
  · intro r h
    simp only [resolveThinking] at h ⊢
    rw [if_pos h]
  · intro r h
    simp only [resolveThinking] at h ⊢
    rw [if_neg (by omega)]
  · intro r
    simp only [resolveThinking]
    split <;> omega

/-- Witness for C8 (amended): an override mapping sending `high` to 5000 is
what `xhigh` receives, and a cap of 100 under `minimal` is bumped to 2048. -/
theorem resolveThinking_amended_witness :
    (resolveThinking .xhigh (fun _ => some 5000) 100).1 = 5000 ∧
    (resolveThinking .minimal (fun _ => none) 100).2 = 2048 := by
  constructor
  · exact (resolveThinking_amended (fun _ => some 5000) 100).2.1 5000 rfl
  · exact ((resolveThinking_amended (fun _ => none) 100).2.2.1 .minimal (by decide)).trans
      (by decide)

/-- Claim C1: after a `message_start` or `message_delta` vendor event, each usage
counter is overwritten with the value the event carries (a `message_delta`
keeps the previous value for a field it does not carry; `message_start`
treats a missing field as 0), the total is recomputed as the sum of the four
counters, the cost is recomputed from the four counters, and the rest of the
output is untouched.  A `message_delta` carrying a recognized stop reason —
the normal final delta — overwrites the usage the same way, additionally
storing the classified stop reason. -/
theorem usage_snapshot_overwrite (model : ModelD) (st : SOut) (i o cr cw : Option Nat) :
    processEvent model st (.messageStart i o cr cw) =
      .ok ({ st with usage :=
        { input := i.getD 0, output := o.getD 0,
          cacheRead := cr.getD 0, cacheWrite := cw.getD 0,
          totalTokens := i.getD 0 + o.getD 0 + cr.getD 0 + cw.getD 0,
          cost := calculateCost model (i.getD 0) (o.getD 0) (cr.getD 0) (cw.getD 0) } }, []) ∧
    processEvent model st (.messageDelta none i o cr cw) =
      .ok ({ st with usage :=
        { input := i.getD st.usage.input, output := o.getD st.usage.output,
          cacheRead := cr.getD st.usage.cacheRead, cacheWrite := cw.getD st.usage.cacheWrite,
          totalTokens := i.getD st.usage.input + o.getD st.usage.output +
            cr.getD st.usage.cacheRead + cw.getD st.usage.cacheWrite,
          cost := calculateCost model (i.getD st.usage.input) (o.getD st.usage.output)
            (cr.getD st.usage.cacheRead) (cw.getD st.usage.cacheWrite) } }, []) ∧
    ∀ (r : JStr) (s' : StopReason), mapStopReason r = .ok s' →
      processEvent model st (.messageDelta (some r) i o cr cw) =
        .ok ({ st with stopReason := s', usage :=
          { input := i.getD st.usage.input, output := o.getD st.usage.output,
            cacheRead := cr.getD st.usage.cacheRead, cacheWrite := cw.getD st.usage.cacheWrite,
            totalTokens := i.getD st.usage.input + o.getD st.usage.output +
              cr.getD st.usage.cacheRead + cw.getD st.usage.cacheWrite,
            cost := calculateCost model (i.getD st.usage.input) (o.getD st.usage.output)
              (cr.getD st.usage.cacheRead) (cw.getD st.usage.cacheWrite) } }, []) := by
  refine ⟨rfl, rfl, ?_⟩
  intro r s' h
  simp [processEvent, h]

/-- Witness for C1: the spec §8 final delta — stop reason `end_turn` with
`output = 5` arriving over `st0` — stores stop reason `stop`, overwrites
`input`/`output`, keeps the cache counters, and recomputes total and cost. -/
theorem usage_snapshot_overwrite_witness :
    processEvent modelT st0 (.messageDelta (some (jstr "end_turn"))
        (some 10) (some 5) none none) =
      .ok ({ st0 with stopReason := .stop, usage :=
        { input := 10, output := 5, cacheRead := 0, cacheWrite := 0, totalTokens := 15,
          cost := calculateCost modelT 10 5 0 0 } }, []) := by
  have h := (usage_snapshot_overwrite modelT st0 (some 10) (some 5) none none).2.2
    (jstr "end_turn") .stop rfl
  simpa [st0, usage0] using h

theorem findBlock_eq_none {content : List SBlock} {idx : Nat}
    (h : ∀ b ∈ content, b.index ≠ some idx) : findBlock content idx = none := by
  induction content with
  | nil => rfl
  | cons b rest ih =>
    simp only [findBlock]
    rw [if_neg (h b (List.mem_cons_self b rest)),
      ih (fun x hx => h x (List.mem_cons_of_mem _ hx))]
    rfl

/-- Claim C9: a `content_block_delta` whose position tag matches no accumulated
block leaves the output unchanged, emits nothing, and does not fail. -/
theorem processEvent_ignores_unknown_delta (model : ModelD) (st : SOut)
    (idx : Nat) (d : DeltaKind)
    (h : ∀ b ∈ st.content, SBlock.index b ≠ some idx) :
    processEvent model st (.blockDelta idx d) = .ok (st, []) := by
  simp [processEvent, findBlock_eq_none h]

/-- Witness for C9: a delta addressed at position 1 while the only block is
tagged 0 is dropped on the floor. -/
theorem processEvent_unknown_delta_witness :
    processEvent modelT st0 (.blockDelta 1 (.textDelta (jstr "x"))) = .ok (st0, []) :=
  processEvent_ignores_unknown_delta modelT st0 1 (.textDelta (jstr "x")) (by decide)

/-! ### List helpers for the conversion-loop proofs -/

theorem takeWhile_append_all {α : Type} {p : α → Bool} {l l2 : List α}
    (h : ∀ a ∈ l, p a = true) (h2 : ∀ a, l2.head? = some a → p a = false) :
    (l ++ l2).takeWhile p = l ∧ (l ++ l2).dropWhile p = l2 := by
  induction l with
  | nil =>
    simp only [List.nil_append]
    cases l2 with
    | nil => simp
    | cons a t =>
      have := h2 a rfl
      simp [List.takeWhile_cons, List.dropWhile_cons, this]
  | cons a t ih =>
    have ha := h a (List.mem_cons_self a t)
    have iht := ih (fun x hx => h x (List.mem_cons_of_mem _ hx))
    simp [List.takeWhile_cons, List.dropWhile_cons, ha, iht.1, iht.2]

theorem takeWhile_append_ex {α : Type} {p : α → Bool} {l l2 : List α}
    (h : ∃ a ∈ l, p a = false) :
    (l ++ l2).takeWhile p = l.takeWhile p ∧
      (l ++ l2).dropWhile p = l.dropWhile p ++ l2 := by
  induction l with
  | nil => simp at h
  | cons a t ih =>
    by_cases ha : p a
    · have h' : ∃ x ∈ t, p x = false := by
        obtain ⟨x, hx, hpx⟩ := h
        cases hx with
        | head => rw [ha] at hpx; exact absurd hpx (by simp)
        | tail _ hx' => exact ⟨x, hx', hpx⟩
      have iht := ih h'
      simp [List.takeWhile_cons, List.dropWhile_cons, ha, iht.1, iht.2]
    · simp [List.takeWhile_cons, List.dropWhile_cons, ha]

theorem getLast?_cons_ne {α : Type} {a : α} {l : List α} (h : l ≠ []) :
    (a :: l).getLast? = l.getLast? := by
  cases l with
  | nil => exact absurd rfl h
  | cons b t => exact List.getLast?_cons_cons

theorem eq_dropLast_concat {α : Type} {l : List α} {b : α}
    (h : l.getLast? = some b) : l = l.dropLast ++ [b] := by
  induction l with
  | nil => simp at h
  | cons a t ih =>
    cases t with
    | nil =>
      simp only [List.getLast?_singleton, Option.some.injEq] at h
      simp [h]
    | cons c t' =>
      rw [List.getLast?_cons_cons] at h
      have := ih h
      calc a :: c :: t' = a :: ((c :: t').dropLast ++ [b]) := by rw [← this]
        _ = (a :: c :: t').dropLast ++ [b] := by simp [List.dropLast]

theorem getLast?_dropWhile {α : Type} {p : α → Bool} {l : List α} {b : α}
    (h : l.getLast? = some b) (hb : p b = false) :
    (l.dropWhile p).getLast? = some b := by
  induction l with
  | nil => simp at h
  | cons a t ih =>
    by_cases ha : p a
    · cases t with
      | nil =>
        simp only [List.getLast?_singleton, Option.some.injEq] at h
        subst h
        rw [ha] at hb
        exact absurd hb (by simp)
      | cons c t' =>
        rw [List.getLast?_cons_cons] at h
        rw [List.dropWhile_cons, if_pos ha]
        exact ih h
    · rw [List.dropWhile_cons, if_neg ha]
      exact h

/-- `convertLoop` distributes over an append whose left part does not end in
a tool-result turn (a tool-result run never crosses the boundary). -/
theorem convertLoop_append (model : ModelD) (xs ys : List Msg)
    (hx : ∀ m, xs.getLast? = some m → m.isTR = false) :
    convertLoop model (xs ++ ys) = convertLoop model xs ++ convertLoop model ys := by
  suffices H : ∀ n (xs : List Msg), xs.length ≤ n →
      (∀ m, xs.getLast? = some m → m.isTR = false) →
      convertLoop model (xs ++ ys) = convertLoop model xs ++ convertLoop model ys from
    H xs.length xs le_rfl hx
  intro n
  induction n with
  | zero =>
    intro xs hlen _
    have : xs = [] := List.length_eq_zero.mp (Nat.le_zero.mp hlen)
    subst this
    simp [convertLoop]
  | succ n ih =>
    intro xs hlen hx
    cases xs with
    | nil => simp [convertLoop]
    | cons m xs' =>
      have hlen' : xs'.length ≤ n := by
        simp only [List.length_cons] at hlen
        omega
      have hx' : ∀ m2, xs'.getLast? = some m2 → m2.isTR = false := by
        intro m2 hm2
        apply hx
        cases xs' with
        | nil => simp at hm2
        | cons a t => rw [List.getLast?_cons_cons]; exact hm2
      cases m with
      | userStr s =>
        simp only [List.cons_append, convertLoop]
        rw [ih xs' hlen' hx', List.append_assoc]
      | userParts ps =>
        simp only [List.cons_append, convertLoop]
        rw [ih xs' hlen' hx', List.append_assoc]
      | assistant ps =>
        simp only [List.cons_append, convertLoop]
        rw [ih xs' hlen' hx', List.append_assoc]
      | toolResult id c e =>
        have hxs' : xs' ≠ [] := by
          intro hh
          subst hh
          have := hx (.toolResult id c e) (by simp)
          simp [Msg.isTR] at this
        have hlastTR : Msg.isTR (xs'.getLast hxs') = false := by
          apply hx
          rw [getLast?_cons_ne hxs']
          exact (List.getLast?_eq_getLast xs' hxs').symm ▸ rfl
        have hex : ∃ a ∈ xs', Msg.isTR a = false :=
          ⟨xs'.getLast hxs', List.getLast_mem hxs', hlastTR⟩
        have htw := @takeWhile_append_ex Msg Msg.isTR xs' ys hex
        have hlast? : xs'.getLast? = some (xs'.getLast hxs') :=
          List.getLast?_eq_getLast xs' hxs'
        have hdrop_last : (xs'.dropWhile Msg.isTR).getLast? = some (xs'.getLast hxs') :=
          getLast?_dropWhile hlast? hlastTR
        have hx'' : ∀ m2, (xs'.dropWhile Msg.isTR).getLast? = some m2 → m2.isTR = false := by
          intro m2 hm2
          rw [hdrop_last] at hm2
          cases hm2
          exact hlastTR
        simp only [List.cons_append, convertLoop]
        rw [htw.1, htw.2,
          ih (xs'.dropWhile Msg.isTR) (le_trans (length_dropWhile_le _ _) hlen') hx'']

/-- A leading run of tool-result turns becomes exactly one user message
whose blocks are the run's `tool_result` blocks in order. -/
theorem convertLoop_run (model : ModelD) (run post : List Msg)
    (hne : run ≠ []) (hrun : ∀ m ∈ run, m.isTR = true)
    (hpost : ∀ m, post.head? = some m → m.isTR = false) :
    convertLoop model (run ++ post) =
      ⟨.user, .inr (run.map trBlock)⟩ :: convertLoop model post := by
  cases run with
  | nil => exact absurd rfl hne
  | cons r run' =>
    have hr := hrun r (List.mem_cons_self r run')
    cases r with
    | userStr s => simp [Msg.isTR] at hr
    | userParts ps => simp [Msg.isTR] at hr
    | assistant ps => simp [Msg.isTR] at hr
    | toolResult id c e =>
      have hall : ∀ a ∈ run', Msg.isTR a = true :=
        fun x hx => hrun x (List.mem_cons_of_mem _ hx)
      have htw := takeWhile_append_all hall hpost
      simp only [List.cons_append, convertLoop, htw.1, htw.2, List.map_cons]

theorem eraseB_setCC (b : VBlock) : eraseB (setCC b) = eraseB b := by
  cases b <;> rfl

theorem eraseMsg_annotateMsg (m : VMsg) : eraseMsg (annotateMsg m) = eraseMsg m := by
  obtain ⟨r, c⟩ := m
  unfold annotateMsg
  rcases c with s | bs
  · by_cases hr : r = .user <;> simp [hr, eraseMsg]
  · by_cases hr : r = .user
    · rcases hb : bs.getLast? with _ | b
      · simp [hr, hb]
      · by_cases hmk : markable b
        · simp only [hr, hb, hmk, if_true, reduceIte]
          simp only [eraseMsg, List.map_append]
          conv_rhs => rw [eq_dropLast_concat hb, List.map_append]
          simp [eraseB_setCC]
        · simp [hr, hb, hmk]
    · simp [hr]

/-- The cache pass touches only the final message of a non-empty list. -/
theorem annotateCache_append_last (init : List VMsg) (m : VMsg) :
    annotateCache (init ++ [m]) = init ++ [annotateMsg m] := by
  induction init with
  | nil => rfl
  | cons a t ih =>
    cases t with
    | nil => rfl
    | cons b t' =>
      show a :: annotateCache (b :: t' ++ [m]) = a :: (b :: t' ++ [annotateMsg m])
      rw [ih]

/-- Up to cache-control markers, the cache pass changes nothing. -/
theorem eraseCC_annotateCache (ps : List VMsg) :
    eraseCC (annotateCache ps) = eraseCC ps := by
  induction ps with
  | nil => rfl
  | cons a t ih =>
    cases t with
    | nil =>
      show eraseCC [annotateMsg a] = eraseCC [a]
      simp [eraseCC, eraseMsg_annotateMsg]
    | cons b t' =>
      show eraseCC (a :: annotateCache (b :: t')) = eraseCC (a :: b :: t')
      simp only [eraseCC, List.map_cons] at ih ⊢
      rw [show (annotateCache (b :: t')).map eraseMsg = (b :: t').map eraseMsg from ih]
      rfl

/-- Claim C5: a run of consecutive tool-result turns (here of length at
least two) is coalesced by `convertMessages` into exactly one user-role
vendor message, holding one `tool_result` block per turn of the run in the
original order, each carrying its turn's back-reference id, converted
content and error flag.  Stated up to cache-control markers (`eraseCC`),
which claim C7 covers. -/
theorem convertMessages_coalesces_tool_results (model : ModelD)
    (pre post : List Msg) (rs : List (JStr × List UPart × Bool))
    (hpre : ∀ m, pre.getLast? = some m → m.isTR = false)
    (hlen : 2 ≤ rs.length)
    (hpost : ∀ m, post.head? = some m → m.isTR = false) :
    eraseCC (convertMessages (pre ++ rs.map trMsg ++ post) model) =
      eraseCC (convertLoop model pre) ++
        ⟨.user, .inr (rs.map fun r =>
          VBlock.toolResult r.1 (convertContentBlocks r.2.1) r.2.2 false)⟩ ::
        eraseCC (convertLoop model post) := by
  have hne : rs.map trMsg ≠ [] := by
    intro hh
    rw [List.map_eq_nil_iff] at hh
    subst hh
    simp at hlen
  have hrun : ∀ m ∈ rs.map trMsg, m.isTR = true := by
    intro m hm
    obtain ⟨r, _, rfl⟩ := List.mem_map.mp hm
    rfl
  unfold convertMessages
  rw [eraseCC_annotateCache, List.append_assoc,
    convertLoop_append model pre _ hpre,
    convertLoop_run model _ post hne hrun hpost]
  simp only [eraseCC, List.map_append, List.map_cons, eraseMsg, List.map_map]
  rfl

/-- Witness for C5: the two consecutive tool-result turns after a user turn
produce one user message holding both `tool_result` blocks in order. -/
theorem coalesce_witness :
    eraseCC (convertMessages [Msg.userStr (jstr "hi"),
        Msg.toolResult (jstr "t1") [UPart.text (jstr "ok")] false,
        Msg.toolResult (jstr "t2") [] true] modelT) =
      [⟨.user, .inl (jstr "hi")⟩,
       ⟨.user, .inr [VBlock.toolResult (jstr "t1") (.inl (jstr "ok")) false false,
         VBlock.toolResult (jstr "t2") (.inl []) true false]⟩] := by
  have h := convertMessages_coalesces_tool_results modelT [Msg.userStr (jstr "hi")] []
      [(jstr "t1", [UPart.text (jstr "ok")], false), (jstr "t2", [], true)]
      (by
        intro m hm
        simp only [List.getLast?_singleton, Option.some.injEq] at hm
        subst hm
        rfl)
      (by decide)
      (by intro m hm; simp at hm)
  simp only [List.map_cons, List.map_nil, trMsg, List.cons_append, List.nil_append,
    List.append_nil] at h
  rw [h]
  simp [convertLoop, eraseCC, eraseMsg, trimJs, jstr, isJsWs, sanitizeSurrogates,
    convertContentBlocks, List.intercalate, List.intersperse]

/-- Claim C7: writing the built list as `init ++ [m]` — if the final message
`m` is user-role with a block list ending in a markable block (text, image
or tool_result), `convertMessages` marks exactly that last block with the
ephemeral cache-control flag and leaves `init` untouched; if `m` has
plain-string content or an empty block list, nothing at all is marked. -/
theorem convertMessages_cache_marking (model : ModelD) (msgs : List Msg)
    (init : List VMsg) (m : VMsg)
    (h : convertLoop model msgs = init ++ [m]) :
    (∀ bs b, m.role = .user → m.content = .inr bs → bs.getLast? = some b →
      markable b = true →
      convertMessages msgs model = init ++ [⟨.user, .inr (bs.dropLast ++ [setCC b])⟩]) ∧
    (∀ s, m.content = .inl s → convertMessages msgs model = init ++ [m]) ∧
    (m.content = .inr [] → convertMessages msgs model = init ++ [m]) := by
  unfold convertMessages
  rw [h, annotateCache_append_last]
  obtain ⟨r, c⟩ := m
  refine ⟨?_, ?_, ?_⟩
  · intro bs b hr hc hb hmk
    simp only at hr hc
    subst hr
    subst hc
    congr 2
    simp [annotateMsg, hb, hmk]
  · intro s hc
    simp only at hc
    subst hc
    congr 2
    by_cases hr : r = .user <;> simp [annotateMsg, hr]
  · intro hc
    simp only at hc
    subst hc
    congr 2
    by_cases hr : r = .user <;> simp [annotateMsg, hr]

/-- Witness for C7: the repository test's conversation — the last message is
the tool-result user message and exactly its `tool_result` block gets
`cache_control`. -/
theorem cache_annotation_witness :
    convertMessages [Msg.userStr (jstr "hi"),
        Msg.toolResult (jstr "tool-1") [UPart.text (jstr "ok")] false] modelT =
      [⟨.user, .inl (jstr "hi")⟩,
       ⟨.user, .inr [VBlock.toolResult (jstr "tool-1") (.inl (jstr "ok")) false true]⟩] := by
  have hloop : convertLoop modelT [Msg.userStr (jstr "hi"),
      Msg.toolResult (jstr "tool-1") [UPart.text (jstr "ok")] false] =
      [⟨Role.user, .inl (jstr "hi")⟩] ++
        [⟨Role.user, .inr [VBlock.toolResult (jstr "tool-1") (.inl (jstr "ok"))
          false false]⟩] := by
    simp [convertLoop, trBlock, trimJs, jstr, isJsWs, sanitizeSurrogates,
      convertContentBlocks, List.intercalate, List.intersperse]
  have h := (convertMessages_cache_marking modelT _ _ _ hloop).1
    [VBlock.toolResult (jstr "tool-1") (.inl (jstr "ok")) false false]
    (VBlock.toolResult (jstr "tool-1") (.inl (jstr "ok")) false false)
    rfl rfl rfl rfl
  simpa [setCC] using h

/-- Claim C6: an assistant thinking part with non-blank thinking text
becomes a vendor thinking block (with the text sanitized and the original
signature) exactly when its signature is present and non-blank after
trimming, and is demoted to a plain text block carrying the thinking text
otherwise — both at the level of the per-part conversion and of
`convertMessages` on a turn made of that part. -/
theorem convertMessages_thinking_demotion (model : ModelD) (t : JStr) (sig : Option JStr)
    (h : trimJs t ≠ []) :
    convertAssistantPart (.thinking t sig) =
      some (if sigOk sig then VBlock.thinking (sanitizeSurrogates t) (sig.getD [])
        else VBlock.text (sanitizeSurrogates t) false) ∧
    convertMessages [Msg.assistant [APart.thinking t sig]] model =
      [⟨.assistant, .inr [if sigOk sig then VBlock.thinking (sanitizeSurrogates t) (sig.getD [])
        else VBlock.text (sanitizeSurrogates t) false]⟩] := by
  have hne : (trimJs t).isEmpty = false := by simp [List.isEmpty_iff, h]
  constructor
  · by_cases hs : sigOk sig <;> simp [convertAssistantPart, hne, hs]
  · by_cases hs : sigOk sig <;>
      simp [convertMessages, convertLoop, convertAssistantPart, hne, hs,
        annotateCache, annotateMsg]

/-- Witness for C6: non-empty thinking text with an absent signature is
re-emitted as a plain text block (the spec's §8 example). -/
theorem thinking_demotion_witness :
    convertMessages [Msg.assistant [APart.thinking (jstr "deep thought") none]] modelT =
      [⟨.assistant, .inr [VBlock.text (jstr "deep thought") false]⟩] := by
  have h := (convertMessages_thinking_demotion modelT (jstr "deep thought") none
    (by decide)).2
  have hsan : sanitizeSurrogates (jstr "deep thought") = jstr "deep thought" := rfl
  simpa [sigOk, hsan] using h

/-- Claim C10: tool-result content containing an image part always yields a
base64 image block — `convertContentBlocks` never consults the model, and a
tool-result-only conversation converts identically under any two models —
whereas a multi-part user turn's image part is dropped for a model without
image input. -/
theorem toolResult_images_bypass (id : JStr) (c : List UPart) (e : Bool)
    (m m' : ModelD) (d mi : JStr) (hc : UPart.image d mi ∈ c) :
    (∃ bs, convertContentBlocks c = .inr bs ∧ TBlock.image mi d ∈ bs) ∧
    convertMessages [Msg.toolResult id c e] m = convertMessages [Msg.toolResult id c e] m' ∧
    (Modality.image ∉ m.input → convertMessages [Msg.userParts [UPart.image d mi]] m = []) := by
  refine ⟨?_, ?_, ?_⟩
  · have himg : (c.any fun p => match p with | .image _ _ => true | _ => false) = true := by
      rw [List.any_eq_true]
      exact ⟨_, hc, rfl⟩
    have hmem : TBlock.image mi d ∈ c.map (fun p =>
        match p with
        | .text t => TBlock.text (sanitizeSurrogates t)
        | .image d2 m2 => TBlock.image m2 d2) :=
      List.mem_map.mpr ⟨_, hc, rfl⟩
    unfold convertContentBlocks
    rw [himg]
    simp only [Bool.not_true, Bool.false_eq_true, if_false]
    refine ⟨_, rfl, ?_⟩
    split
    · exact List.mem_cons_of_mem _ hmem
    · exact hmem
  · simp [convertMessages, convertLoop, annotateCache]
  · intro him
    have hub : userBlocks m [UPart.image d mi] = [] := by
      have hcf : m.input.contains Modality.image = false := by
        simpa using him
      simp [userBlocks, userPartBlock, VBlock.isImage, hcf, him]
    simp [convertMessages, convertLoop, hub, annotateCache]

/-- Witness for C10: a text-only model still receives the tool-result image
block (identically to the image-capable test model), while the same image in
a plain user turn is filtered out entirely. -/
theorem toolResult_images_bypass_witness :
    (∃ bs, convertContentBlocks [UPart.image (jstr "AAA") (jstr "image/png")] = .inr bs ∧
      TBlock.image (jstr "image/png") (jstr "AAA") ∈ bs) ∧
    convertMessages [Msg.toolResult (jstr "t") [UPart.image (jstr "AAA") (jstr "image/png")]
        false] modelTextOnly =
      convertMessages [Msg.toolResult (jstr "t") [UPart.image (jstr "AAA") (jstr "image/png")]
        false] modelT ∧
    convertMessages [Msg.userParts [UPart.image (jstr "AAA") (jstr "image/png")]]
      modelTextOnly = [] := by
  have h := toolResult_images_bypass (jstr "t") [UPart.image (jstr "AAA") (jstr "image/png")]
    false modelTextOnly modelT (jstr "AAA") (jstr "image/png") (by decide)
  exact ⟨h.1, h.2.1, h.2.2 (by decide)⟩

end VertexClaude
